import Mathlib

/-!
Shallow embedding of the local-first data layer of the fbb-coach workout
tracker (src/src/store/useStore.ts and src/src/types/index.ts).

Modelling conventions:
* ISO-8601 timestamp strings are represented by their epoch-millisecond
  value as an `Int` (the code only ever compares timestamps through
  `new Date(s).getTime()`, which is strictly monotone in the instant a
  valid ISO string denotes).
* JavaScript numbers that the store only moves around (reps, weights,
  RPE, durations) are represented as `Int`.
* Optional / possibly-`undefined` fields become `Option`.
* `uuidv4()` and `Date.now()` are nondeterministic inputs; every store
  operation that consumes them takes them as explicit arguments.
* The zustand `set` with a partial object is modelled by a structure
  update that leaves every unmentioned field unchanged; the fire-and-forget
  sync side effects (`syncApi.*`) never touch the local state and are
  therefore not part of the state transition.
-/

/-- Performed or prescribed workout set (interface `WorkoutSet`). -/
structure WorkoutSet where
  id : String
  exerciseId : String
  exerciseName : String
  setNumber : Int
  targetReps : Int
  targetWeight : Int
  actualReps : Option Int
  actualWeight : Option Int
  rpe : Option Int
  completed : Bool
  notes : Option String
  tempo : Option String
  intensity : Option String
  restPrescription : Option String
  repsRich : Option String
  setsAlias : Option Int
deriving DecidableEq

/-- One named training day inside a Program (interface `WorkoutDay`). -/
structure WorkoutDay where
  id : String
  name : String
  dayOfWeek : Int
  exercises : List WorkoutSet
  notes : Option String
  weekNumber : Option Int
  dayNumber : Option Int
deriving DecidableEq

/-- A multi-week training program (interface `Program`). -/
structure Program where
  id : String
  name : String
  description : String
  duration : Int
  daysPerWeek : Int
  goal : String
  workoutDays : List WorkoutDay
  createdAt : Int
  updatedAt : Int
deriving DecidableEq

/-- One dated training session (interface `WorkoutLog`). -/
structure WorkoutLog where
  id : String
  programId : Option String
  workoutDayId : Option String
  date : Int
  duration : Int
  sets : List WorkoutSet
  notes : Option String
  rating : Option Int
  completed : Bool
deriving DecidableEq

/-- One chat message (interface `ChatMessage`). -/
structure ChatMessage where
  id : String
  role : String
  content : String
  timestamp : Int
deriving DecidableEq

/-- One coaching conversation (interface `Conversation`). -/
structure Conversation where
  id : String
  title : String
  messages : List ChatMessage
  createdAt : Int
  updatedAt : Int
deriving DecidableEq

/-- The persisted slice of the zustand store (`AppState` in useStore.ts):
entity collections plus the ephemeral current workout.  The sync-status
flags (`syncEnabled`, `isSyncing`, ...) are omitted: none of the modelled
operations reads or writes them. -/
structure StoreState where
  programs : List Program
  activeProgram : Option Program
  workoutLogs : List WorkoutLog
  currentWorkout : Option WorkoutLog
  conversations : List Conversation
  activeConversationId : Option String
  chatMessages : List ChatMessage
deriving DecidableEq

/-- The store created with every collection empty (the initial zustand state). -/
def emptyStore : StoreState :=
  { programs := []
    activeProgram := none
    workoutLogs := []
    currentWorkout := none
    conversations := []
    activeConversationId := none
    chatMessages := [] }

/-- `Omit<Program, 'id' | 'createdAt' | 'updatedAt'>`: the caller-supplied
part of a new program handed to `addProgram`. -/
structure ProgramData where
  name : String
  description : String
  duration : Int
  daysPerWeek : Int
  goal : String
  workoutDays : List WorkoutDay
deriving DecidableEq

/-- `Partial<Program>`: every field optional, `none` meaning the key is
absent from the update object. -/
structure ProgramPatch where
  id : Option String := none
  name : Option String := none
  description : Option String := none
  duration : Option Int := none
  daysPerWeek : Option Int := none
  goal : Option String := none
  workoutDays : Option (List WorkoutDay) := none
  createdAt : Option Int := none
  updatedAt : Option Int := none
deriving DecidableEq

/-- The TypeScript spread `{ ...p, ...updates, updatedAt: now }` used by
`updateProgram`: present patch fields override, and `updatedAt` is always
refreshed afterwards (so a patch's own `updatedAt` is discarded). -/
def applyPatch (p : Program) (u : ProgramPatch) (now : Int) : Program :=
  { id := u.id.getD p.id
    name := u.name.getD p.name
    description := u.description.getD p.description
    duration := u.duration.getD p.duration
    daysPerWeek := u.daysPerWeek.getD p.daysPerWeek
    goal := u.goal.getD p.goal
    workoutDays := u.workoutDays.getD p.workoutDays
    createdAt := u.createdAt.getD p.createdAt
    updatedAt := now }

/-- `setActiveProgram(program)` (useStore.ts:63). -/
def setActiveProgram (st : StoreState) (p : Option Program) : StoreState :=
  { st with activeProgram := p }

/-- `addProgram(programData)` (useStore.ts:71): build the new program from
the data plus a fresh uuid and the current instant, and append it. -/
def addProgram (st : StoreState) (data : ProgramData) (freshId : String) (now : Int) :
    StoreState :=
  let newProgram : Program :=
    { id := freshId
      name := data.name
      description := data.description
      duration := data.duration
      daysPerWeek := data.daysPerWeek
      goal := data.goal
      workoutDays := data.workoutDays
      createdAt := now
      updatedAt := now }
  { st with programs := st.programs ++ [newProgram] }

/-- `updateProgram(id, updates)` (useStore.ts:86): map over the program
list, patching exactly the entries whose id matches. -/
def updateProgram (st : StoreState) (id : String) (u : ProgramPatch) (now : Int) :
    StoreState :=
  { st with programs := st.programs.map fun p =>
      if p.id = id then applyPatch p u now else p }

/-- `deleteProgram(id)` (useStore.ts:101): drop matching programs and clear
the active pointer when it pointed at the deleted id. -/
def deleteProgram (st : StoreState) (id : String) : StoreState :=
  { st with
    programs := st.programs.filter fun p => p.id ≠ id
    activeProgram :=
      match st.activeProgram with
      | some a => if a.id = id then none else some a
      | none => none }

/-- The set-cloning loop of `startWorkout` (useStore.ts:123):
`sets.map((s) => ({ ...s, id: uuidv4(), completed: false }))`, with the
i-th fresh uuid supplied by `freshId`. -/
def cloneSets (freshId : Nat → String) : Nat → List WorkoutSet → List WorkoutSet
  | _, [] => []
  | i, s :: rest => { s with id := freshId i, completed := false } :: cloneSets freshId (i + 1) rest

/-- `startWorkout(programId?, workoutDayId?, sets = [])` (useStore.ts:116). -/
def startWorkout (st : StoreState) (wid : String) (programId workoutDayId : Option String)
    (sets : List WorkoutSet) (freshId : Nat → String) (now : Int) : StoreState :=
  { st with currentWorkout := some (
      { id := wid
        programId := programId
        workoutDayId := workoutDayId
        date := now
        duration := 0
        sets := cloneSets freshId 0 sets
        notes := none
        rating := none
        completed := false : WorkoutLog }) }

/-- `Partial<WorkoutLog>` handed to `updateCurrentWorkout`. -/
structure WorkoutLogPatch where
  id : Option String := none
  programId : Option (Option String) := none
  workoutDayId : Option (Option String) := none
  date : Option Int := none
  duration : Option Int := none
  sets : Option (List WorkoutSet) := none
  notes : Option (Option String) := none
  rating : Option (Option Int) := none
  completed : Option Bool := none
deriving DecidableEq

/-- The spread `{ ...state.currentWorkout, ...updates }`. -/
def applyLogPatch (w : WorkoutLog) (u : WorkoutLogPatch) : WorkoutLog :=
  { id := u.id.getD w.id
    programId := u.programId.getD w.programId
    workoutDayId := u.workoutDayId.getD w.workoutDayId
    date := u.date.getD w.date
    duration := u.duration.getD w.duration
    sets := u.sets.getD w.sets
    notes := u.notes.getD w.notes
    rating := u.rating.getD w.rating
    completed := u.completed.getD w.completed }

/-- `updateCurrentWorkout(updates)` (useStore.ts:129): shallow-merge into
the current workout; writes `null` back when there is none. -/
def updateCurrentWorkout (st : StoreState) (u : WorkoutLogPatch) : StoreState :=
  { st with currentWorkout :=
      match st.currentWorkout with
      | some w => some (applyLogPatch w u)
      | none => none }

/-- The per-set update of `completeSet` (useStore.ts:142): sets with the
named id get the actuals recorded and `completed := true`. -/
def completeSetInList (setId : String) (actualReps actualWeight : Int) (rpe : Option Int)
    (sets : List WorkoutSet) : List WorkoutSet :=
  sets.map fun s =>
    if s.id = setId then
      { s with actualReps := some actualReps, actualWeight := some actualWeight,
               rpe := rpe, completed := true }
    else s

/-- `completeSet(setId, actualReps, actualWeight, rpe)` (useStore.ts:137). -/
def completeSet (st : StoreState) (setId : String) (actualReps actualWeight : Int)
    (rpe : Option Int) : StoreState :=
  { st with currentWorkout :=
      match st.currentWorkout with
      | some w => some { w with sets := completeSetInList setId actualReps actualWeight rpe w.sets }
      | none => none }

/-- The per-set update of `uncompleteSet` (useStore.ts:157): only the
`completed` flag is cleared, the recorded actuals stay. -/
def uncompleteSetInList (setId : String) (sets : List WorkoutSet) : List WorkoutSet :=
  sets.map fun s => if s.id = setId then { s with completed := false } else s

/-- `uncompleteSet(setId)` (useStore.ts:152). -/
def uncompleteSet (st : StoreState) (setId : String) : StoreState :=
  { st with currentWorkout :=
      match st.currentWorkout with
      | some w => some { w with sets := uncompleteSetInList setId w.sets }
      | none => none }

/-- `Math.round (a / b)` for integer `a` and positive integer `b`:
JavaScript's `Math.round x` is `⌊x + 1/2⌋`, so for the rational `a / b`
this is `⌊(2a + b) / (2b)⌋`. -/
def jsRoundDiv (a b : Int) : Int := Int.fdiv (2 * a + b) (2 * b)

/-- `finishWorkout(notes, rating)` (useStore.ts:167): no-op when idle;
otherwise stamp duration/notes/rating/completed on the current workout,
append it to history and clear the current workout. -/
def finishWorkout (st : StoreState) (now : Int) (notes : Option String)
    (rating : Option Int) : StoreState :=
  match st.currentWorkout with
  | none => st
  | some cw =>
    let completedWorkout : WorkoutLog :=
      { cw with
        notes := notes
        rating := rating
        completed := true
        duration := jsRoundDiv (now - cw.date) 60000 }
    { st with
      workoutLogs := st.workoutLogs ++ [completedWorkout]
      currentWorkout := none }

/-- `cancelWorkout()` (useStore.ts:192): just clear the current workout. -/
def cancelWorkout (st : StoreState) : StoreState :=
  { st with currentWorkout := none }

/-! ## Export / import (useStore.ts:396-424)

`exportData` JSON-stringifies the four visible collections together with a
version tag; `importData` parses its argument, checks the two mandatory
collections are present, and replaces state wholesale.  The JSON text
layer is abstracted: a successfully parsed blob is an `ImportBlob` whose
`none` fields are keys that are absent (hence falsy) in the parsed object,
and an unparseable input is `none` at the outer `Option`.  JSON
stringify/parse is assumed to round-trip the structured value. -/

/-- The parsed shape of an export blob: each collection is `none` when the
corresponding key is missing from the JSON object. -/
structure ImportBlob where
  programs : Option (List Program)
  activeProgram : Option Program
  workoutLogs : Option (List WorkoutLog)
  chatMessages : Option (List ChatMessage)
deriving DecidableEq

/-- `exportData()` (useStore.ts:396), seen through the JSON layer: the
blob holds all programs, the active program, all workout logs and the
visible chat history. -/
def exportData (st : StoreState) : ImportBlob :=
  { programs := some st.programs
    activeProgram := st.activeProgram
    workoutLogs := some st.workoutLogs
    chatMessages := some st.chatMessages }

/-- `importData(jsonString)` (useStore.ts:408).  `parsed = none` models a
`JSON.parse` failure (the catch branch).  Returns the boolean result
together with the state after the call. -/
def importData (st : StoreState) (parsed : Option ImportBlob) : Bool × StoreState :=
  match parsed with
  | none => (false, st)
  | some data =>
    match data.programs, data.workoutLogs with
    | some ps, some ls =>
      (true,
        { st with
          programs := ps
          activeProgram := data.activeProgram
          workoutLogs := ls
          chatMessages := data.chatMessages.getD [] })
    | some _, none => (false, st)
    | none, _ => (false, st)

/-! ## Merge helper (useStore.ts:583-610)

`mergeData` builds a JavaScript `Map` keyed by entity id.  A JS `Map` is a
hash map that preserves insertion order and whose `set` on an existing key
overwrites in place; it is modelled by an association list. -/

/-- `Map.prototype.get`. -/
def jsMapGet {T : Type} (m : List (String × T)) (k : String) : Option T :=
  (m.find? fun p => p.1 = k).map fun p => p.2

/-- `Map.prototype.set`: overwrite in place when the key exists, otherwise
append. -/
def jsMapSet {T : Type} (m : List (String × T)) (k : String) (v : T) :
    List (String × T) :=
  if m.any (fun p => p.1 = k) then
    m.map fun p => if p.1 = k then (k, v) else p
  else
    m ++ [(k, v)]

/-- `mergeData(local, remote, dateField)` (useStore.ts:583): put every
remote item in the map, then walk the local items, inserting the ones with
a fresh id and overwriting an existing entry only when the local recency
value is strictly greater. -/
def mergeData {T : Type} (getId : T → String) (dateField : T → Int)
    (loc rem : List T) : List T :=
  let m1 := rem.foldl (fun m item => jsMapSet m (getId item) item) []
  let m2 := loc.foldl (fun m item =>
    match jsMapGet m (getId item) with
    | none => jsMapSet m (getId item) item
    | some existing =>
      if dateField existing < dateField item then jsMapSet m (getId item) item
      else m) m1
  m2.map fun p => p.2

/-! ## Streak analytics (useStore.ts:309-366)

`getStats` filters the completed logs, sorts them most-recent-first with
the stable JS `Array.sort`, buckets each date to local midnight with
`setHours(0,0,0,0)`, and scans the buckets keeping a running streak that
resets once the day gap exceeds two.  Midnight bucketing is modelled by
flooring the epoch-millisecond value to a day index (timezone offset 0);
the `Math.round` of the millisecond difference of two midnights is then
exactly the day-index difference. -/

/-- Stable insertion into a list kept sorted by date descending (ties keep
the earlier element first), matching the stable JS sort with comparator
`(a, b) => b.date - a.date`. -/
def insertByDateDesc (x : WorkoutLog) : List WorkoutLog → List WorkoutLog
  | [] => [x]
  | y :: ys => if y.date ≤ x.date then x :: y :: ys else y :: insertByDateDesc x ys

/-- `[...workoutLogs].filter(l => l.completed).sort((a, b) => b.date - a.date)`. -/
def completedSortedDesc (logs : List WorkoutLog) : List WorkoutLog :=
  (logs.filter fun l => l.completed).foldr insertByDateDesc []

/-- `logDate.setHours(0,0,0,0)` as a calendar-day index. -/
def dayBucket (t : Int) : Int := Int.fdiv t 86400000

/-- The mutable locals of the streak loop in `getStats`. -/
structure StreakAcc where
  longestStreak : Int
  tempStreak : Int
  lastDay : Option Int
deriving DecidableEq

/-- One iteration of the `for (const log of sortedLogs)` loop. -/
def streakStep (acc : StreakAcc) (log : WorkoutLog) : StreakAcc :=
  let d := dayBucket log.date
  match acc.lastDay with
  | none => { acc with tempStreak := 1, lastDay := some d }
  | some last =>
    if last - d ≤ 2 then
      { acc with tempStreak := acc.tempStreak + 1, lastDay := some d }
    else
      { longestStreak := max acc.longestStreak acc.tempStreak
        tempStreak := 1
        lastDay := some d }

/-- The accumulator after the whole loop. -/
def streakFinal (logs : List WorkoutLog) : StreakAcc :=
  (completedSortedDesc logs).foldl streakStep
    { longestStreak := 0, tempStreak := 0, lastDay := none }

/-- The `currentStreak` field computed by `getStats` (useStore.ts:345):
the value of `tempStreak` when the loop ends. -/
def getStatsCurrentStreak (logs : List WorkoutLog) : Int :=
  (streakFinal logs).tempStreak

/-- The `longestStreak` field computed by `getStats` (useStore.ts:344). -/
def getStatsLongestStreak (logs : List WorkoutLog) : Int :=
  max (streakFinal logs).longestStreak (streakFinal logs).tempStreak

/-- Collapse adjacent equal day indices into one calendar-day bucket. -/
def dedupDays : List Int → List Int
  | [] => []
  | [d] => [d]
  | d :: d2 :: rest => if d = d2 then dedupDays (d2 :: rest) else d :: dedupDays (d2 :: rest)

/-- Length of the leading run of day indices in which each step to the
next (older) bucket is a gap of at most two days. -/
def leadingRunLength : List Int → Int
  | [] => 0
  | [_] => 1
  | d :: d2 :: rest => if d - d2 ≤ 2 then 1 + leadingRunLength (d2 :: rest) else 1

/-- Modelled from the spec: the current streak as the specification
describes it — "currentStreak equals the length of the most recent
unbroken run of completed-workout day-buckets", scanning the completed
logs most-recent-first and breaking at a gap of more than two days.  Used
only to exhibit the divergence from `getStatsCurrentStreak`. -/
def specCurrentStreak (logs : List WorkoutLog) : Int :=
  leadingRunLength (dedupDays ((completedSortedDesc logs).map fun l => dayBucket l.date))

/-! ## Sequences of program operations

For reasoning about arbitrary call sequences of the three program
mutations, an operation datatype together with its interpreter over the
store.  `uuidv4()` results and `Date.now()` instants are recorded inside
the operations. -/

/-- One call to `addProgram`, `updateProgram` or `deleteProgram`. -/
inductive ProgOp where
  | add (data : ProgramData) (freshId : String) (now : Int)
  | update (id : String) (patch : ProgramPatch) (now : Int)
  | del (id : String)
deriving DecidableEq

/-- Interpret one operation on the store. -/
def applyOp (st : StoreState) : ProgOp → StoreState
  | .add data freshId now => addProgram st data freshId now
  | .update id patch now => updateProgram st id patch now
  | .del id => deleteProgram st id

/-- Run a call sequence from the empty store. -/
def runOps (ops : List ProgOp) : StoreState := ops.foldl applyOp emptyStore

/-- The uuids consumed by the `addProgram` calls of a sequence. -/
def addIds : List ProgOp → List String
  | [] => []
  | .add _ freshId _ :: rest => freshId :: addIds rest
  | .update _ _ _ :: rest => addIds rest
  | .del _ :: rest => addIds rest

/-- Whether an operation's `Partial<Program>` leaves the `id` field alone
(`addProgram`/`deleteProgram` trivially do). -/
def opKeepsId : ProgOp → Bool
  | .update _ patch _ => patch.id.isNone
  | _ => true

/-! ## Concrete sample data (used by witnesses and counterexamples) -/

/-- A prescribed bench-press set. -/
def demoSet : WorkoutSet :=
  { id := "s1", exerciseId := "e1", exerciseName := "Bench Press", setNumber := 1
    targetReps := 10, targetWeight := 135, actualReps := none, actualWeight := none
    rpe := none, completed := false, notes := none, tempo := none, intensity := none
    restPrescription := none, repsRich := none, setsAlias := none }

/-- An in-progress workout holding `demoSet`. -/
def demoLog : WorkoutLog :=
  { id := "w1", programId := none, workoutDayId := none, date := 0, duration := 0
    sets := [demoSet], notes := none, rating := none, completed := false }

/-- A store in the Active session state. -/
def demoActiveStore : StoreState := { emptyStore with currentWorkout := some demoLog }

/-- The caller-supplied fields of a sample program. -/
def demoProgramData (n : String) : ProgramData :=
  { name := n, description := "demo", duration := 8, daysPerWeek := 4
    goal := "hypertrophy", workoutDays := [] }

/-- A sample program with a chosen id and `updatedAt`. -/
def demoProgram (pid : String) (upd : Int) : Program :=
  { id := pid, name := "P", description := "demo", duration := 8, daysPerWeek := 4
    goal := "hypertrophy", workoutDays := [], createdAt := 0, updatedAt := upd }

/-! ## Theorems -/

/-- C7: in the Idle state (`currentWorkout = none`) each of `completeSet`,
`uncompleteSet`, `updateCurrentWorkout` and `finishWorkout` is a no-op:
the whole store state is returned unchanged. -/
theorem idle_ops_are_noops (st : StoreState) (h : st.currentWorkout = none)
    (setId : String) (r w : Int) (rpe : Option Int) (u : WorkoutLogPatch)
    (now : Int) (notes : Option String) (rating : Option Int) :
    completeSet st setId r w rpe = st ∧
    uncompleteSet st setId = st ∧
    updateCurrentWorkout st u = st ∧
    finishWorkout st now notes rating = st := by
  cases st
  simp_all [completeSet, uncompleteSet, updateCurrentWorkout, finishWorkout]

/-- Witness for C7: the four idle no-ops evaluated on the empty store. -/
theorem idle_ops_are_noops_witness :
    completeSet emptyStore "s1" 10 135 none = emptyStore ∧
    uncompleteSet emptyStore "s1" = emptyStore ∧
    updateCurrentWorkout emptyStore {} = emptyStore ∧
    finishWorkout emptyStore 60000 none none = emptyStore :=
  idle_ops_are_noops emptyStore rfl "s1" 10 135 none {} 60000 none none

/-- C9: from the Active state, `cancelWorkout` clears `currentWorkout` and
leaves every other field of the store — in particular the WorkoutLog
history — exactly unchanged. -/
theorem cancelWorkout_frame (st : StoreState) (w : WorkoutLog)
    (_h : st.currentWorkout = some w) :
    (cancelWorkout st).workoutLogs = st.workoutLogs ∧
    (cancelWorkout st).currentWorkout = none ∧
    (cancelWorkout st).programs = st.programs ∧
    (cancelWorkout st).activeProgram = st.activeProgram ∧
    (cancelWorkout st).conversations = st.conversations ∧
    (cancelWorkout st).activeConversationId = st.activeConversationId ∧
    (cancelWorkout st).chatMessages = st.chatMessages := by
  simp [cancelWorkout]

/-- Witness for C9: cancelling the sample active workout. -/
theorem cancelWorkout_frame_witness :
    (cancelWorkout demoActiveStore).workoutLogs = demoActiveStore.workoutLogs ∧
    (cancelWorkout demoActiveStore).currentWorkout = none ∧
    (cancelWorkout demoActiveStore).programs = demoActiveStore.programs ∧
    (cancelWorkout demoActiveStore).activeProgram = demoActiveStore.activeProgram ∧
    (cancelWorkout demoActiveStore).conversations = demoActiveStore.conversations ∧
    (cancelWorkout demoActiveStore).activeConversationId = demoActiveStore.activeConversationId ∧
    (cancelWorkout demoActiveStore).chatMessages = demoActiveStore.chatMessages :=
  cancelWorkout_frame demoActiveStore demoLog rfl

/-- C2: `importData` is atomic.  A parse failure, or a parsed blob missing
the programs or the workout-logs collection, returns `false` and leaves
the whole store untouched; a blob carrying both collections returns `true`
and replaces programs, active program, workout logs and chat messages
wholesale. -/
theorem importData_spec (st : StoreState) (parsed : Option ImportBlob) :
    ((parsed = none ∨ ∃ b, parsed = some b ∧ (b.programs = none ∨ b.workoutLogs = none)) →
      importData st parsed = (false, st)) ∧
    (∀ b ps ls, parsed = some b → b.programs = some ps → b.workoutLogs = some ls →
      importData st parsed =
        (true,
          { st with
            programs := ps
            activeProgram := b.activeProgram
            workoutLogs := ls
            chatMessages := b.chatMessages.getD [] })) := by
  constructor
  · rintro (rfl | ⟨b, rfl, hb | hb⟩)
    · rfl
    · simp [importData, hb]
    · cases hp : b.programs <;> simp [importData, hp, hb]
  · rintro b ps ls rfl hp hl
    simp [importData, hp, hl]

/-- Witness for C2: an unparseable input leaves the sample active store
exactly as it was. -/
theorem importData_spec_witness :
    importData demoActiveStore none = (false, demoActiveStore) :=
  (importData_spec demoActiveStore none).1 (Or.inl rfl)

/-- C3: importing the blob produced by `exportData` succeeds and
reproduces the store — in particular the program list, the active program
and the workout-log list are identical to the original's. -/
theorem export_import_roundtrip (st : StoreState) :
    importData st (some (exportData st)) = (true, st) := by
  cases st
  simp [importData, exportData]

/-- Re-completing a set with the same arguments after uncompleting it
restores exactly the sets produced by the first completion. -/
theorem completeSetInList_uncomplete_complete (setId : String) (r w : Int)
    (rpe : Option Int) (l : List WorkoutSet) :
    completeSetInList setId r w rpe
        (uncompleteSetInList setId (completeSetInList setId r w rpe l)) =
      completeSetInList setId r w rpe l := by
  induction l with
  | nil => rfl
  | cons s rest ih =>
    by_cases h : s.id = setId <;>
      simp [completeSetInList, uncompleteSetInList, h] at ih ⊢ <;>
      exact ih

/-- C6: in the Active state, `completeSet; uncompleteSet; completeSet`
with the same arguments produces exactly the state of a single
`completeSet` call, and `uncompleteSet` clears only the `completed` flag
of the named set, preserving its recorded `actualReps`, `actualWeight`
and `rpe` (and every other set entirely). -/
theorem completeSet_toggle_idempotent (st : StoreState) (cw : WorkoutLog)
    (h : st.currentWorkout = some cw) (setId : String)
    (_hs : ∃ s ∈ cw.sets, s.id = setId) (r w : Int) (rpe : Option Int) :
    completeSet (uncompleteSet (completeSet st setId r w rpe) setId) setId r w rpe =
      completeSet st setId r w rpe ∧
    (uncompleteSet st setId).currentWorkout =
      some { cw with sets := uncompleteSetInList setId cw.sets } ∧
    (∀ (i : Nat) (s : WorkoutSet), cw.sets[i]? = some s →
      ∃ s' : WorkoutSet, (uncompleteSetInList setId cw.sets)[i]? = some s' ∧
        s'.id = s.id ∧ s'.actualReps = s.actualReps ∧
        s'.actualWeight = s.actualWeight ∧ s'.rpe = s.rpe ∧
        (s.id = setId → s'.completed = false) ∧ (s.id ≠ setId → s' = s)) := by
  refine ⟨?_, ?_, ?_⟩
  · simp [completeSet, uncompleteSet, h, completeSetInList_uncomplete_complete]
  · simp [uncompleteSet, h]
  · intro i s hi
    refine ⟨if s.id = setId then { s with completed := false } else s, ?_, ?_⟩
    · simp [uncompleteSetInList, List.getElem?_map, hi]
    · by_cases hid : s.id = setId <;> simp [hid]

/-- Witness for C6: toggling the sample set of the sample active store. -/
theorem completeSet_toggle_idempotent_witness :
    completeSet (uncompleteSet (completeSet demoActiveStore "s1" 10 135 (some 8)) "s1")
        "s1" 10 135 (some 8) =
      completeSet demoActiveStore "s1" 10 135 (some 8) ∧
    (uncompleteSet demoActiveStore "s1").currentWorkout =
      some { demoLog with sets := uncompleteSetInList "s1" demoLog.sets } ∧
    (∀ (i : Nat) (s : WorkoutSet), demoLog.sets[i]? = some s →
      ∃ s' : WorkoutSet, (uncompleteSetInList "s1" demoLog.sets)[i]? = some s' ∧
        s'.id = s.id ∧ s'.actualReps = s.actualReps ∧
        s'.actualWeight = s.actualWeight ∧ s'.rpe = s.rpe ∧
        (s.id = "s1" → s'.completed = false) ∧ (s.id ≠ "s1" → s' = s)) :=
  completeSet_toggle_idempotent demoActiveStore demoLog rfl "s1"
    ⟨demoSet, by simp [demoLog], rfl⟩ 10 135 (some 8)

/-! ## The start → complete-every-set → finish lifecycle -/

/-- Calling `completeSet` once for each set id in `ids`, in order, at the
list-of-sets level.  The actual arguments may depend on the id. -/
def completeAll (argR argW : String → Int) (argRpe : String → Option Int) :
    List String → List WorkoutSet → List WorkoutSet
  | [], sets => sets
  | setId :: ids, sets =>
    completeAll argR argW argRpe ids
      (completeSetInList setId (argR setId) (argW setId) (argRpe setId) sets)

/-- Calling `completeSet` on the store once for each set id in `ids`. -/
def completeAllOps (argR argW : String → Int) (argRpe : String → Option Int)
    (ids : List String) (st : StoreState) : StoreState :=
  ids.foldl (fun s setId => completeSet s setId (argR setId) (argW setId) (argRpe setId)) st

/-- `completeSetInList` preserves the id sequence of the sets. -/
theorem completeSetInList_map_id (setId : String) (r w : Int) (rpe : Option Int)
    (l : List WorkoutSet) :
    (completeSetInList setId r w rpe l).map (fun s => s.id) = l.map fun s => s.id := by
  induction l with
  | nil => rfl
  | cons s rest ih =>
    by_cases h : s.id = setId <;> simp [completeSetInList, h] at ih ⊢ <;> exact ih

/-- `completeAll` preserves the id sequence of the sets. -/
theorem completeAll_map_id (argR argW : String → Int) (argRpe : String → Option Int)
    (ids : List String) (sets : List WorkoutSet) :
    (completeAll argR argW argRpe ids sets).map (fun s => s.id) = sets.map fun s => s.id := by
  induction ids generalizing sets with
  | nil => rfl
  | cons setId rest ih =>
    simpa [completeAll, completeSetInList_map_id] using
      (ih (completeSetInList setId (argR setId) (argW setId) (argRpe setId) sets)).trans
        (completeSetInList_map_id setId (argR setId) (argW setId) (argRpe setId) sets)

/-- A member of `completeSetInList setId … l` whose id is `setId` has its
`completed` flag set. -/
theorem completeSetInList_mem_completed (setId : String) (r w : Int) (rpe : Option Int)
    (l : List WorkoutSet) (s : WorkoutSet)
    (hmem : s ∈ completeSetInList setId r w rpe l) (hid : s.id = setId) :
    s.completed = true := by
  rcases List.mem_map.mp hmem with ⟨t, _, rfl⟩
  by_cases h : t.id = setId <;> simp_all

/-- A member of `completeAll … ids sets` whose id is outside `ids` was
already a member of `sets`. -/
theorem completeAll_mem_of_not_touched (argR argW : String → Int)
    (argRpe : String → Option Int) (ids : List String) (sets : List WorkoutSet)
    (s : WorkoutSet) (hmem : s ∈ completeAll argR argW argRpe ids sets)
    (hid : s.id ∉ ids) : s ∈ sets := by
  induction ids generalizing sets with
  | nil => exact hmem
  | cons setId rest ih =>
    have h1 : s ∈ completeSetInList setId (argR setId) (argW setId) (argRpe setId) sets :=
      ih _ hmem fun h => hid (List.mem_cons_of_mem _ h)
    rcases List.mem_map.mp h1 with ⟨t, ht, rfl⟩
    by_cases h : t.id = setId
    · simp [h] at hid
    · simpa [h] using ht

/-- Every member of `completeAll … ids sets` whose id occurs in `ids` ends
up completed. -/
theorem completeAll_mem_completed (argR argW : String → Int)
    (argRpe : String → Option Int) (ids : List String) (sets : List WorkoutSet)
    (s : WorkoutSet) (hmem : s ∈ completeAll argR argW argRpe ids sets)
    (hid : s.id ∈ ids) : s.completed = true := by
  induction ids generalizing sets with
  | nil => cases hid
  | cons setId rest ih =>
    by_cases hin : s.id ∈ rest
    · exact ih _ hmem hin
    · have hhead : s.id = setId := by
        rcases List.mem_cons.mp hid with h | h
        · exact h
        · exact absurd h hin
      have h1 : s ∈ completeSetInList setId (argR setId) (argW setId) (argRpe setId) sets :=
        completeAll_mem_of_not_touched argR argW argRpe rest _ s hmem hin
      exact completeSetInList_mem_completed setId _ _ _ sets s h1 hhead

/-- `completeAll` preserves the number of sets. -/
theorem completeAll_length (argR argW : String → Int) (argRpe : String → Option Int)
    (ids : List String) (sets : List WorkoutSet) :
    (completeAll argR argW argRpe ids sets).length = sets.length := by
  have h := congrArg List.length (completeAll_map_id argR argW argRpe ids sets)
  simpa using h

/-- `cloneSets` preserves the number of sets. -/
theorem cloneSets_length (freshId : Nat → String) (i : Nat) (sets : List WorkoutSet) :
    (cloneSets freshId i sets).length = sets.length := by
  induction sets generalizing i with
  | nil => rfl
  | cons s rest ih => simp [cloneSets, ih]

/-- `completeAllOps` on an Active store edits exactly the current
workout's sets, through `completeAll`. -/
theorem completeAllOps_active (argR argW : String → Int) (argRpe : String → Option Int)
    (ids : List String) (st : StoreState) (cw : WorkoutLog)
    (h : st.currentWorkout = some cw) :
    completeAllOps argR argW argRpe ids st =
      { st with currentWorkout := some { cw with sets := completeAll argR argW argRpe ids cw.sets } } := by
  induction ids generalizing st cw with
  | nil =>
    cases st
    simp_all [completeAllOps, completeAll]
  | cons setId rest ih =>
    have hstep :
        completeSet st setId (argR setId) (argW setId) (argRpe setId) =
          { st with currentWorkout := some ({ cw with
              sets := completeSetInList setId (argR setId) (argW setId) (argRpe setId) cw.sets }) } := by
      simp [completeSet, h]
    calc completeAllOps argR argW argRpe (setId :: rest) st
        = completeAllOps argR argW argRpe rest
            (completeSet st setId (argR setId) (argW setId) (argRpe setId)) := rfl
      _ = _ := by rw [hstep, ih _ _ rfl]; rfl

/-- C4: `startWorkout` on a list of prescribed sets, then `completeSet`
on every one of the fresh set ids, then `finishWorkout`, appends exactly
one WorkoutLog to the history; it is completed, has one set per
prescribed set, every set completed, duration equal to the rounded
elapsed minutes since the start instant, and `currentWorkout` is cleared. -/
theorem workout_lifecycle (st : StoreState) (wid : String)
    (programId workoutDayId : Option String) (sets : List WorkoutSet)
    (freshId : Nat → String) (now now2 : Int) (argR argW : String → Int)
    (argRpe : String → Option Int) (notes : Option String) (rating : Option Int) :
    ∃ w : WorkoutLog,
      (finishWorkout
          (completeAllOps argR argW argRpe
            ((cloneSets freshId 0 sets).map fun s => s.id)
            (startWorkout st wid programId workoutDayId sets freshId now))
          now2 notes rating).workoutLogs = st.workoutLogs ++ [w] ∧
      w.completed = true ∧
      w.sets.length = sets.length ∧
      (∀ s ∈ w.sets, s.completed = true) ∧
      w.duration = jsRoundDiv (now2 - now) 60000 ∧
      (finishWorkout
          (completeAllOps argR argW argRpe
            ((cloneSets freshId 0 sets).map fun s => s.id)
            (startWorkout st wid programId workoutDayId sets freshId now))
          now2 notes rating).currentWorkout = none := by
  set ids := (cloneSets freshId 0 sets).map fun s => s.id with hids
  set cw0 : WorkoutLog :=
    { id := wid, programId := programId, workoutDayId := workoutDayId, date := now
      duration := 0, sets := cloneSets freshId 0 sets, notes := none, rating := none
      completed := false } with hcw0
  have hstart : (startWorkout st wid programId workoutDayId sets freshId now).currentWorkout = some cw0 := rfl
  have hops := completeAllOps_active argR argW argRpe ids
    (startWorkout st wid programId workoutDayId sets freshId now) cw0 hstart
  refine ⟨{ cw0 with
      sets := completeAll argR argW argRpe ids cw0.sets
      notes := notes, rating := rating, completed := true
      duration := jsRoundDiv (now2 - now) 60000 }, ?_, rfl, ?_, ?_, rfl, ?_⟩
  · rw [hops]
    simp [finishWorkout, startWorkout, jsRoundDiv]
  · simp [completeAll_length, hcw0, cloneSets_length]
  · intro s hs
    have hsid : s.id ∈ ids := by
      have : s.id ∈ (completeAll argR argW argRpe ids cw0.sets).map (fun t => t.id) :=
        List.mem_map_of_mem _ hs
      rw [completeAll_map_id] at this
      exact this
    exact completeAll_mem_completed argR argW argRpe ids cw0.sets s hs hsid
  · rw [hops]
    simp [finishWorkout, startWorkout]

/-! ## The program-store invariant -/

/-- `addIds` distributes over concatenation of call sequences. -/
theorem addIds_append (l1 l2 : List ProgOp) :
    addIds (l1 ++ l2) = addIds l1 ++ addIds l2 := by
  induction l1 with
  | nil => rfl
  | cons op rest ih => cases op <;> simp [addIds, ih]

/-- When the patch leaves `id` alone, `applyPatch` preserves the id. -/
theorem applyPatch_id (p : Program) (u : ProgramPatch) (now : Int)
    (h : u.id = none) : (applyPatch p u now).id = p.id := by
  simp [applyPatch, h]

/-- Running a call sequence whose `addProgram` uuids are fresh and
pairwise distinct and whose patches never override `id` keeps the program
ids of the store pairwise distinct. -/
theorem runOps_nodup_aux (ops : List ProgOp) (st : StoreState)
    (h1 : (st.programs.map fun p => p.id).Nodup)
    (h2 : ∀ p ∈ st.programs, p.id ∉ addIds ops)
    (h3 : (addIds ops).Nodup)
    (h4 : ∀ op ∈ ops, opKeepsId op = true) :
    ((ops.foldl applyOp st).programs.map fun p => p.id).Nodup := by
  induction ops generalizing st with
  | nil => exact h1
  | cons op rest ih =>
    have h4rest : ∀ o ∈ rest, opKeepsId o = true := fun o ho => h4 o (List.mem_cons_of_mem _ ho)
    cases op with
    | add data freshId now =>
      refine ih (applyOp st (.add data freshId now)) ?_ ?_ ?_ h4rest
      · have hfresh : freshId ∉ st.programs.map fun p => p.id := by
          intro hmem
          rcases List.mem_map.mp hmem with ⟨p, hp, hpid⟩
          exact (h2 p hp) (by simp [addIds, hpid])
        simpa [applyOp, addProgram, List.nodup_append, hfresh] using h1
      · intro p hp
        simp only [applyOp, addProgram, List.mem_append, List.mem_singleton] at hp
        rcases hp with hmem | rfl
        · exact fun hin => h2 p hmem (by simp [addIds, hin])
        · simpa using (List.nodup_cons.mp (by simpa [addIds] using h3)).1
      · exact (List.nodup_cons.mp (by simpa [addIds] using h3)).2
    | update id patch now =>
      have hid : patch.id = none := Option.isNone_iff_eq_none.mp
        (by simpa [opKeepsId] using h4 _ (List.mem_cons_self _ _))
      have hids : ((applyOp st (.update id patch now)).programs.map fun p => p.id) =
          st.programs.map fun p => p.id := by
        simp only [applyOp, updateProgram, List.map_map]
        refine List.map_congr_left fun p _ => ?_
        by_cases h : p.id = id <;> simp [h, applyPatch_id _ _ _ hid]
      refine ih (applyOp st (.update id patch now)) ?_ ?_ ?_ h4rest
      · rw [hids]; exact h1
      · intro p hp
        simp only [applyOp, updateProgram] at hp
        rcases List.mem_map.mp hp with ⟨q, hq, rfl⟩
        have hqid : (if q.id = id then applyPatch q patch now else q).id = q.id := by
          by_cases h : q.id = id <;> simp [h, applyPatch_id _ _ _ hid]
        rw [hqid]
        exact fun hin => h2 q hq (by simpa [addIds] using hin)
      · simpa [addIds] using h3
    | del id =>
      refine ih (applyOp st (.del id)) ?_ ?_ ?_ h4rest
      · exact ((List.filter_sublist _).map _).nodup h1
      · intro p hp
        exact fun hin => h2 p (List.mem_of_mem_filter hp) (by simpa [addIds] using hin)
      · simpa [addIds] using h3

/-- C5 (amended): for every sequence of `addProgram` / `updateProgram` /
`deleteProgram` calls from the empty store in which the uuids handed to
`addProgram` are pairwise distinct and no `updateProgram` partial carries
an `id` override, after any prefix the store holds no two programs with
the same id and at most one program is active; and `deleteProgram id`
removes every program with that id, clearing the active pointer when it
pointed at that id. -/
theorem program_store_invariant (ops pre rest : List ProgOp)
    (hsplit : ops = pre ++ rest)
    (hadd : (addIds ops).Nodup)
    (hpatch : ∀ op ∈ ops, opKeepsId op = true) :
    (((runOps pre).programs.map fun p => p.id).Nodup) ∧
    (∀ p q : Program, (runOps pre).activeProgram = some p →
      (runOps pre).activeProgram = some q → p = q) ∧
    (∀ (st : StoreState) (id : String),
      (∀ p ∈ (deleteProgram st id).programs, p.id ≠ id) ∧
      (∀ a : Program, st.activeProgram = some a → a.id = id →
        (deleteProgram st id).activeProgram = none)) := by
  subst hsplit
  refine ⟨?_, ?_, ?_⟩
  · refine runOps_nodup_aux pre emptyStore (by simp [emptyStore]) (by simp [emptyStore]) ?_ ?_
    · rw [addIds_append] at hadd
      exact hadd.of_append_left
    · exact fun op hop => hpatch op (List.mem_append_left _ hop)
  · intro p q hp hq
    rw [hp] at hq
    exact Option.some.inj hq
  · intro st id
    constructor
    · intro p hp
      have := List.of_mem_filter hp
      simpa using this
    · intro a ha hid
      simp [deleteProgram, ha, hid]

/-- Counterexample to C5 as stated: two `addProgram` calls with distinct
fresh uuids followed by an `updateProgram` whose `Partial<Program>`
carries `id: "a"` leave the store with two programs both carrying id
`"a"`. -/
theorem program_store_invariant_counterexample :
    ¬ (((runOps [ProgOp.add (demoProgramData "A") "a" 0,
          ProgOp.add (demoProgramData "B") "b" 0,
          ProgOp.update "b" { id := some "a" } 1]).programs.map fun p => p.id).Nodup) := by
  decide

/-- Witness for C5: the amended invariant applied to the one-add sequence. -/
theorem program_store_invariant_witness :
    (((runOps [ProgOp.add (demoProgramData "A") "a" 0]).programs.map fun p => p.id).Nodup) ∧
    (∀ p q : Program, (runOps [ProgOp.add (demoProgramData "A") "a" 0]).activeProgram = some p →
      (runOps [ProgOp.add (demoProgramData "A") "a" 0]).activeProgram = some q → p = q) ∧
    (∀ (st : StoreState) (id : String),
      (∀ p ∈ (deleteProgram st id).programs, p.id ≠ id) ∧
      (∀ a : Program, st.activeProgram = some a → a.id = id →
        (deleteProgram st id).activeProgram = none)) :=
  program_store_invariant [ProgOp.add (demoProgramData "A") "a" 0]
    [ProgOp.add (demoProgramData "A") "a" 0] [] (by simp) (by decide) (by decide)

/-- C10: when the active program's id also occurs in the program list,
`updateProgram(activeProgram.id, partial)` rewrites only the matching
program-list entries (merging the partial and refreshing `updatedAt`)
while the `activeProgram` field itself — and every other store field —
is left unchanged, so the stale `activeProgram` object can then differ
from its list entry. -/
theorem updateProgram_active_frame (st : StoreState) (a : Program) (u : ProgramPatch)
    (now : Int) (h1 : st.activeProgram = some a)
    (h2 : ∃ p ∈ st.programs, p.id = a.id) :
    (updateProgram st a.id u now).activeProgram = some a ∧
    (updateProgram st a.id u now).workoutLogs = st.workoutLogs ∧
    (updateProgram st a.id u now).currentWorkout = st.currentWorkout ∧
    (updateProgram st a.id u now).conversations = st.conversations ∧
    (updateProgram st a.id u now).chatMessages = st.chatMessages ∧
    (updateProgram st a.id u now).programs.length = st.programs.length ∧
    (∀ (i : Nat) (p : Program), st.programs[i]? = some p →
      (updateProgram st a.id u now).programs[i]? =
        some (if p.id = a.id then applyPatch p u now else p)) ∧
    (∀ (i : Nat) (p : Program), st.programs[i]? = some p → p.id = a.id →
      ∃ q : Program, (updateProgram st a.id u now).programs[i]? = some q ∧
        q.updatedAt = now) := by
  obtain ⟨p0, hp0, hp0id⟩ := h2
  have hget : ∀ (i : Nat) (p : Program), st.programs[i]? = some p →
      (updateProgram st a.id u now).programs[i]? =
        some (if p.id = a.id then applyPatch p u now else p) := by
    intro i p hi
    simp [updateProgram, List.getElem?_map, hi]
  refine ⟨by simp [updateProgram, h1], rfl, rfl, rfl, rfl,
    by simp [updateProgram], hget, ?_⟩
  intro i p hi hid
  refine ⟨applyPatch p u now, ?_, rfl⟩
  simpa [hid] using hget i p hi

/-- A concrete store whose active program "a" also sits in the program
list. -/
def demoStoreWithActive : StoreState :=
  { emptyStore with
    programs := [demoProgram "a" 5]
    activeProgram := some (demoProgram "a" 5) }

/-- Witness for C10: renaming the active program in the sample store. -/
theorem updateProgram_active_frame_witness :
    (updateProgram demoStoreWithActive "a" { name := some "X" } 9).activeProgram =
      some (demoProgram "a" 5) ∧
    (updateProgram demoStoreWithActive "a" { name := some "X" } 9).workoutLogs =
      demoStoreWithActive.workoutLogs ∧
    (updateProgram demoStoreWithActive "a" { name := some "X" } 9).currentWorkout =
      demoStoreWithActive.currentWorkout ∧
    (updateProgram demoStoreWithActive "a" { name := some "X" } 9).conversations =
      demoStoreWithActive.conversations ∧
    (updateProgram demoStoreWithActive "a" { name := some "X" } 9).chatMessages =
      demoStoreWithActive.chatMessages ∧
    (updateProgram demoStoreWithActive "a" { name := some "X" } 9).programs.length =
      demoStoreWithActive.programs.length ∧
    (∀ (i : Nat) (p : Program), demoStoreWithActive.programs[i]? = some p →
      (updateProgram demoStoreWithActive "a" { name := some "X" } 9).programs[i]? =
        some (if p.id = (demoProgram "a" 5).id then applyPatch p { name := some "X" } 9 else p)) ∧
    (∀ (i : Nat) (p : Program), demoStoreWithActive.programs[i]? = some p →
      p.id = (demoProgram "a" 5).id →
      ∃ q : Program,
        (updateProgram demoStoreWithActive "a" { name := some "X" } 9).programs[i]? = some q ∧
        q.updatedAt = 9) :=
  updateProgram_active_frame demoStoreWithActive (demoProgram "a" 5) { name := some "X" } 9
    rfl ⟨demoProgram "a" 5, by simp [demoStoreWithActive], rfl⟩

/-- A completed, set-free workout log on calendar day `d`. -/
def streakLogAt (d : Int) (n : String) : WorkoutLog :=
  { id := n, programId := none, workoutDayId := none, date := d * 86400000
    duration := 45, sets := [], notes := none, rating := none, completed := true }

/-- C8: on a history with a recent two-day run (days 100 and 99) and a
lone older workout (day 50), `getStats` reports `currentStreak = 1` —
the length of the oldest run, because the most-recent-first scan leaves
`tempStreak` holding the last run processed — while the specified value,
the length of the most recent unbroken run, is 2. -/
theorem getStats_currentStreak_divergence :
    getStatsCurrentStreak
        [streakLogAt 100 "l1", streakLogAt 99 "l2", streakLogAt 50 "l3"] = 1 ∧
    specCurrentStreak
        [streakLogAt 100 "l1", streakLogAt 99 "l2", streakLogAt 50 "l3"] = 2 ∧
    getStatsLongestStreak
        [streakLogAt 100 "l1", streakLogAt 99 "l2", streakLogAt 50 "l3"] = 2 := by
  decide

/-! ## Correctness of the last-writer-wins merge -/

/-- `jsMapGet` on a cons cell. -/
theorem jsMapGet_cons {T : Type} (p : String × T) (m : List (String × T)) (k : String) :
    jsMapGet (p :: m) k = if p.1 = k then some p.2 else jsMapGet m k := by
  by_cases h : p.1 = k <;> simp [jsMapGet, List.find?_cons, h]

/-- `jsMapGet` misses exactly the keys absent from the map. -/
theorem jsMapGet_eq_none_iff {T : Type} (m : List (String × T)) (k : String) :
    jsMapGet m k = none ↔ ∀ p ∈ m, p.1 ≠ k := by
  induction m with
  | nil => simp [jsMapGet]
  | cons p rest ih =>
    by_cases h : p.1 = k <;> simp [jsMapGet_cons, h, ih]

/-- Setting an absent key appends the binding. -/
theorem jsMapSet_fresh {T : Type} (m : List (String × T)) (k : String) (v : T)
    (h : ∀ p ∈ m, p.1 ≠ k) : jsMapSet m k v = m ++ [(k, v)] := by
  have hany : m.any (fun p => p.1 = k) = false := by
    simp only [List.any_eq_false, decide_eq_true_eq]
    exact h
  simp [jsMapSet, hany]

/-- After `jsMapSet m k v` the key `k` maps to `v`. -/
theorem jsMapGet_set_self {T : Type} (m : List (String × T)) (k : String) (v : T) :
    jsMapGet (jsMapSet m k v) k = some v := by
  induction m with
  | nil => simp [jsMapSet, jsMapGet_cons]
  | cons p rest ih =>
    by_cases hp : p.1 = k
    · have hany : (p :: rest).any (fun q => q.1 = k) = true := by
        simp [List.any_cons, hp]
      simp [jsMapSet, hany, jsMapGet_cons, hp]
    · cases hany : rest.any (fun q => q.1 = k) with
      | true =>
        have hcons : (p :: rest).any (fun q => q.1 = k) = true := by
          simp [List.any_cons, hany]
        have ihmap : jsMapGet (rest.map fun q => if q.1 = k then (k, v) else q) k = some v := by
          have := ih
          simpa [jsMapSet, hany] using this
        simp [jsMapSet, hcons, jsMapGet_cons, hp, ihmap]
      | false =>
        have hcons : (p :: rest).any (fun q => q.1 = k) = false := by
          simp [List.any_cons, hany, hp]
        have ihapp : jsMapGet (rest ++ [(k, v)]) k = some v := by
          have := ih
          simpa [jsMapSet, hany] using this
        simp [jsMapSet, hcons, jsMapGet_cons, hp, ihapp]

/-- Overriding the binding of `k` in place leaves other keys alone. -/
theorem jsMapGet_mapOverride_other {T : Type} (m : List (String × T)) (k k' : String)
    (v : T) (hk : k' ≠ k) :
    jsMapGet (m.map fun q => if q.1 = k then (k, v) else q) k' = jsMapGet m k' := by
  induction m with
  | nil => rfl
  | cons q tail ih =>
    by_cases hq : q.1 = k
    · have h1 : ¬(k = k') := fun h => hk h.symm
      have h2 : ¬(q.1 = k') := by rw [hq]; exact h1
      simp [List.map_cons, if_pos hq, jsMapGet_cons, h1, h2, ih]
    · simp [List.map_cons, if_neg hq, jsMapGet_cons, ih]

/-- Appending a binding for `k` leaves other keys alone. -/
theorem jsMapGet_append_single_other {T : Type} (m : List (String × T)) (k k' : String)
    (v : T) (hk : k' ≠ k) :
    jsMapGet (m ++ [(k, v)]) k' = jsMapGet m k' := by
  induction m with
  | nil =>
    have h1 : ¬(k = k') := fun h => hk h.symm
    simp [jsMapGet_cons, jsMapGet, h1]
  | cons q tail ih => simp [jsMapGet_cons, ih]

/-- `jsMapSet` leaves every other key's binding alone. -/
theorem jsMapGet_set_other {T : Type} (m : List (String × T)) (k k' : String) (v : T)
    (hk : k' ≠ k) : jsMapGet (jsMapSet m k v) k' = jsMapGet m k' := by
  cases hany : m.any (fun p => p.1 = k) with
  | true =>
    simp only [jsMapSet, hany, if_true]
    exact jsMapGet_mapOverride_other m k k' v hk
  | false =>
    simp only [jsMapSet, hany, Bool.false_eq_true, if_false]
    exact jsMapGet_append_single_other m k k' v hk

/-- Well-formedness of the id-keyed map: every binding's key is the id of
its value, and keys are pairwise distinct. -/
def MapWF {T : Type} (getId : T → String) (m : List (String × T)) : Prop :=
  (∀ p ∈ m, getId p.2 = p.1) ∧ (m.map fun p => p.1).Nodup

/-- `jsMapSet` with a binding whose key is its value's id preserves
well-formedness. -/
theorem MapWF_set {T : Type} (getId : T → String) (m : List (String × T)) (k : String)
    (v : T) (h : MapWF getId m) (hv : getId v = k) : MapWF getId (jsMapSet m k v) := by
  obtain ⟨hent, hkeys⟩ := h
  cases hany : m.any (fun p => p.1 = k) with
  | true =>
    simp only [jsMapSet, hany, if_true]
    constructor
    · intro p hp
      rcases List.mem_map.mp hp with ⟨q, hq, rfl⟩
      by_cases hqk : q.1 = k <;> simp [hqk, hv, hent q hq]
    · have : ((m.map fun q => if q.1 = k then (k, v) else q).map fun p => p.1) =
          m.map fun p => p.1 := by
        rw [List.map_map]
        refine List.map_congr_left fun q _ => ?_
        by_cases hqk : q.1 = k <;> simp [hqk]
      rw [this]
      exact hkeys
  | false =>
    simp only [jsMapSet, hany, Bool.false_eq_true, if_false]
    have hfresh : ∀ p ∈ m, p.1 ≠ k := by
      intro p hp
      simpa using List.any_eq_false.mp hany p hp
    constructor
    · intro p hp
      rcases List.mem_append.mp hp with hmem | hmem
      · exact hent p hmem
      · rcases List.mem_singleton.mp hmem with rfl
        exact hv
    · have hknot : k ∉ m.map fun p => p.1 := by
        intro hmem
        rcases List.mem_map.mp hmem with ⟨q, hq, hqk⟩
        exact hfresh q hq hqk
      simp [List.nodup_append, hkeys, hknot]

/-- In a map with pairwise-distinct keys, `jsMapGet` answers exactly the
bindings present in the map. -/
theorem jsMapGet_eq_some_iff {T : Type} (m : List (String × T)) (k : String) (v : T)
    (hkeys : (m.map fun p => p.1).Nodup) :
    jsMapGet m k = some v ↔ (k, v) ∈ m := by
  induction m with
  | nil => simp [jsMapGet]
  | cons p rest ih =>
    have hkeys' : (rest.map fun p => p.1).Nodup := (List.nodup_cons.mp hkeys).2
    have hnotin : p.1 ∉ rest.map fun p => p.1 := (List.nodup_cons.mp hkeys).1
    by_cases hp : p.1 = k
    · subst hp
      simp only [jsMapGet_cons, if_pos rfl, List.mem_cons]
      constructor
      · rintro h
        left
        cases p
        simpa using h.symm
      · rintro (h | h)
        · rw [← h]
          simp
        · exact absurd (List.mem_map_of_mem (fun q => q.1) h) (by simpa using hnotin)
    · simp only [jsMapGet_cons, if_neg hp, List.mem_cons]
      rw [ih hkeys']
      constructor
      · exact Or.inr
      · rintro (h | h)
        · exact absurd (congrArg (fun q => q.1) h.symm) hp
        · exact h

/-- The body of the second `mergeData` loop ("override with local items
if they're more recent"), as a named function. -/
def mergeStep {T : Type} (getId : T → String) (dateField : T → Int)
    (m : List (String × T)) (item : T) : List (String × T) :=
  match jsMapGet m (getId item) with
  | none => jsMapSet m (getId item) item
  | some existing =>
    if dateField existing < dateField item then jsMapSet m (getId item) item
    else m

/-- `mergeData` is the two folds: remote insertion, then local override. -/
theorem mergeData_eq {T : Type} (getId : T → String) (dateField : T → Int)
    (loc rem : List T) :
    mergeData getId dateField loc rem =
      (loc.foldl (mergeStep getId dateField)
        (rem.foldl (fun m item => jsMapSet m (getId item) item) [])).map fun p => p.2 := rfl

/-- Folding fresh, pairwise-distinct ids into the map just appends the
bindings in order. -/
theorem remFold_eq {T : Type} (getId : T → String) (rem : List T)
    (m : List (String × T)) (hnodup : (rem.map getId).Nodup)
    (hfresh : ∀ r ∈ rem, ∀ p ∈ m, p.1 ≠ getId r) :
    rem.foldl (fun m item => jsMapSet m (getId item) item) m =
      m ++ rem.map fun r => (getId r, r) := by
  induction rem generalizing m with
  | nil => simp
  | cons a rest ih =>
    have hnodup' : (rest.map getId).Nodup := (List.nodup_cons.mp (by simpa using hnodup)).2
    have hnotin : getId a ∉ rest.map getId := (List.nodup_cons.mp (by simpa using hnodup)).1
    have hset : jsMapSet m (getId a) a = m ++ [(getId a, a)] :=
      jsMapSet_fresh m (getId a) a fun p hp => hfresh a (List.mem_cons_self a rest) p hp
    have hfresh' : ∀ r ∈ rest, ∀ p ∈ m ++ [(getId a, a)], p.1 ≠ getId r := by
      intro r hr p hp
      rcases List.mem_append.mp hp with hmem | hmem
      · exact hfresh r (List.mem_cons_of_mem _ hr) p hmem
      · rcases List.mem_singleton.mp hmem with rfl
        intro h
        exact hnotin (by
          rw [show getId a = getId r from h]
          exact List.mem_map_of_mem getId hr)
    calc (a :: rest).foldl (fun m item => jsMapSet m (getId item) item) m
        = rest.foldl (fun m item => jsMapSet m (getId item) item)
            (jsMapSet m (getId a) a) := rfl
      _ = (m ++ [(getId a, a)]) ++ rest.map fun r => (getId r, r) := by
          rw [hset, ih _ hnodup' hfresh']
      _ = m ++ (a :: rest).map fun r => (getId r, r) := by
          simp [List.append_assoc]

/-- `mergeStep` on an id absent from the map inserts the local item. -/
theorem mergeStep_get_self_none {T : Type} (getId : T → String) (dateField : T → Int)
    (m : List (String × T)) (item : T) (h : jsMapGet m (getId item) = none) :
    jsMapGet (mergeStep getId dateField m item) (getId item) = some item := by
  simp [mergeStep, h, jsMapGet_set_self]

/-- `mergeStep` on an id present in the map keeps the more recent of the
existing and the local item, preferring the existing one on a tie. -/
theorem mergeStep_get_self_some {T : Type} (getId : T → String) (dateField : T → Int)
    (m : List (String × T)) (item e : T) (h : jsMapGet m (getId item) = some e) :
    jsMapGet (mergeStep getId dateField m item) (getId item) =
      some (if dateField e < dateField item then item else e) := by
  by_cases hd : dateField e < dateField item <;>
    simp [mergeStep, h, hd, jsMapGet_set_self]

/-- `mergeStep` leaves every other id's binding alone. -/
theorem mergeStep_get_other {T : Type} (getId : T → String) (dateField : T → Int)
    (m : List (String × T)) (item : T) (k : String) (hk : k ≠ getId item) :
    jsMapGet (mergeStep getId dateField m item) k = jsMapGet m k := by
  cases h : jsMapGet m (getId item) with
  | none => simp [mergeStep, h, jsMapGet_set_other _ _ _ _ hk]
  | some e =>
    by_cases hd : dateField e < dateField item <;>
      simp [mergeStep, h, hd, jsMapGet_set_other _ _ _ _ hk]

/-- `mergeStep` preserves well-formedness of the map. -/
theorem MapWF_mergeStep {T : Type} (getId : T → String) (dateField : T → Int)
    (m : List (String × T)) (item : T) (h : MapWF getId m) :
    MapWF getId (mergeStep getId dateField m item) := by
  cases hg : jsMapGet m (getId item) with
  | none => simpa [mergeStep, hg] using MapWF_set getId m (getId item) item h rfl
  | some e =>
    by_cases hd : dateField e < dateField item
    · simpa [mergeStep, hg, hd] using MapWF_set getId m (getId item) item h rfl
    · simpa [mergeStep, hg, hd] using h

/-- Characterisation of the local-override fold: the map stays
well-formed, ids outside `loc` keep their binding, and each local id's
binding becomes the last-writer-wins choice against the starting map. -/
theorem locFold_get {T : Type} (getId : T → String) (dateField : T → Int)
    (loc : List T) (m : List (String × T)) (hwf : MapWF getId m)
    (hnodup : (loc.map getId).Nodup) :
    MapWF getId (loc.foldl (mergeStep getId dateField) m) ∧
    (∀ k, (∀ l ∈ loc, getId l ≠ k) →
      jsMapGet (loc.foldl (mergeStep getId dateField) m) k = jsMapGet m k) ∧
    (∀ l ∈ loc, jsMapGet m (getId l) = none →
      jsMapGet (loc.foldl (mergeStep getId dateField) m) (getId l) = some l) ∧
    (∀ l ∈ loc, ∀ e, jsMapGet m (getId l) = some e →
      jsMapGet (loc.foldl (mergeStep getId dateField) m) (getId l) =
        some (if dateField e < dateField l then l else e)) := by
  induction loc generalizing m with
  | nil =>
    exact ⟨hwf, fun k _ => rfl, fun l hl => absurd hl (List.not_mem_nil l),
      fun l hl => absurd hl (List.not_mem_nil l)⟩
  | cons a rest ih =>
    have hnodup' : (rest.map getId).Nodup := (List.nodup_cons.mp (by simpa using hnodup)).2
    have hnotin : getId a ∉ rest.map getId := (List.nodup_cons.mp (by simpa using hnodup)).1
    have hwf1 := MapWF_mergeStep getId dateField m a hwf
    obtain ⟨ihwf, ihother, ihnone, ihsome⟩ :=
      ih (mergeStep getId dateField m a) hwf1 hnodup'
    have hfold : (a :: rest).foldl (mergeStep getId dateField) m =
        rest.foldl (mergeStep getId dateField) (mergeStep getId dateField m a) := rfl
    have hrestne : ∀ x ∈ rest, getId x ≠ getId a := by
      intro x hx h
      exact hnotin (by rw [← h]; exact List.mem_map_of_mem getId hx)
    refine ⟨by rw [hfold]; exact ihwf, ?_, ?_, ?_⟩
    · intro k hk
      rw [hfold, ihother k fun l hl => hk l (List.mem_cons_of_mem _ hl),
        mergeStep_get_other getId dateField m a k fun h => hk a (List.mem_cons_self a rest) h.symm]
    · intro l hl hnone
      rcases List.mem_cons.mp hl with rfl | hl'
      · rw [hfold, ihother (getId l) hrestne,
          mergeStep_get_self_none getId dateField m l hnone]
      · have hne : getId l ≠ getId a := hrestne l hl'
        have hstep : jsMapGet (mergeStep getId dateField m a) (getId l) = none := by
          rw [mergeStep_get_other getId dateField m a (getId l) hne]
          exact hnone
        rw [hfold]
        exact ihnone l hl' hstep
    · intro l hl e hsome
      rcases List.mem_cons.mp hl with rfl | hl'
      · rw [hfold, ihother (getId l) hrestne,
          mergeStep_get_self_some getId dateField m l e hsome]
      · have hne : getId l ≠ getId a := hrestne l hl'
        have hstep : jsMapGet (mergeStep getId dateField m a) (getId l) = some e := by
          rw [mergeStep_get_other getId dateField m a (getId l) hne]
          exact hsome
        rw [hfold]
        exact ihsome l hl' e hstep

/-- C1: for id-keyed collections (pairwise-distinct ids on each side),
`mergeData` starts from the remote collection and resolves per id:
a local entity with an id no remote entity carries is kept, a remote
entity with an unshared id is kept, and when both sides carry an id the
result for that id is exactly the entity with the strictly greater
recency value — on a tie the remote one, a fixed deterministic choice
(`mergeData` is a pure function of its inputs). -/
theorem mergeData_lastWriterWins {T : Type} (getId : T → String) (dateField : T → Int)
    (loc rem : List T)
    (hl : (loc.map getId).Nodup) (hr : (rem.map getId).Nodup) :
    (∀ l ∈ loc, (∀ r ∈ rem, getId r ≠ getId l) →
      l ∈ mergeData getId dateField loc rem) ∧
    (∀ r ∈ rem, (∀ l ∈ loc, getId l ≠ getId r) →
      r ∈ mergeData getId dateField loc rem) ∧
    (∀ l ∈ loc, ∀ r ∈ rem, getId l = getId r →
      (if dateField r < dateField l then l else r) ∈ mergeData getId dateField loc rem ∧
      ∀ x ∈ mergeData getId dateField loc rem, getId x = getId l →
        x = if dateField r < dateField l then l else r) := by
  have hm1 : rem.foldl (fun m item => jsMapSet m (getId item) item) [] =
      rem.map fun r => (getId r, r) := by
    simpa using remFold_eq getId rem [] hr (by simp)
  have hwf1 : MapWF getId (rem.map fun r => (getId r, r)) := by
    constructor
    · intro p hp
      rcases List.mem_map.mp hp with ⟨r, _, rfl⟩
      rfl
    · rw [List.map_map]
      simpa using hr
  obtain ⟨hwf2, hother, hnone, hsome⟩ :=
    locFold_get getId dateField loc (rem.map fun r => (getId r, r)) hwf1 hl
  have hres : mergeData getId dateField loc rem =
      (loc.foldl (mergeStep getId dateField) (rem.map fun r => (getId r, r))).map
        fun p => p.2 := by
    rw [mergeData_eq, hm1]
  have hm1get_some : ∀ r ∈ rem, jsMapGet (rem.map fun r => (getId r, r)) (getId r) = some r := by
    intro r hrmem
    exact (jsMapGet_eq_some_iff _ _ _ hwf1.2).mpr (List.mem_map_of_mem _ hrmem)
  have hm1get_none : ∀ k, (∀ r ∈ rem, getId r ≠ k) →
      jsMapGet (rem.map fun r => (getId r, r)) k = none := by
    intro k hk
    refine (jsMapGet_eq_none_iff _ _).mpr ?_
    intro p hp
    rcases List.mem_map.mp hp with ⟨r, hrmem, rfl⟩
    exact hk r hrmem
  have hmem_of_get : ∀ (x : T) (k : String),
      jsMapGet (loc.foldl (mergeStep getId dateField) (rem.map fun r => (getId r, r))) k =
        some x → x ∈ mergeData getId dateField loc rem := by
    intro x k hget
    rw [hres]
    exact List.mem_map.mpr ⟨(k, x), (jsMapGet_eq_some_iff _ _ _ hwf2.2).mp hget, rfl⟩
  refine ⟨?_, ?_, ?_⟩
  · intro l hlmem hnor
    refine hmem_of_get l (getId l) ?_
    exact hnone l hlmem (hm1get_none (getId l) hnor)
  · intro r hrmem hnol
    refine hmem_of_get r (getId r) ?_
    rw [hother (getId r) hnol]
    exact hm1get_some r hrmem
  · intro l hlmem r hrmem hid
    have hm1l : jsMapGet (rem.map fun r => (getId r, r)) (getId l) = some r := by
      rw [hid]
      exact hm1get_some r hrmem
    have hgetl := hsome l hlmem r hm1l
    constructor
    · exact hmem_of_get _ (getId l) hgetl
    · intro x hx hxid
      rw [hres] at hx
      rcases List.mem_map.mp hx with ⟨p, hp, rfl⟩
      have hkey : p.1 = getId p.2 := (hwf2.1 p hp).symm
      have hpget : jsMapGet
          (loc.foldl (mergeStep getId dateField) (rem.map fun r => (getId r, r)))
          (getId l) = some p.2 := by
        rw [← hxid, ← hkey]
        exact (jsMapGet_eq_some_iff _ _ _ hwf2.2).mpr hp
      rw [hpget] at hgetl
      exact Option.some.inj hgetl

/-- Witness for C1: merging two one-element program collections that share
id "a" (local updatedAt 5, remote updatedAt 7) keeps exactly the remote
program. -/
theorem mergeData_lastWriterWins_witness :
    (if (demoProgram "a" 7).updatedAt < (demoProgram "a" 5).updatedAt
        then demoProgram "a" 5 else demoProgram "a" 7) ∈
      mergeData Program.id Program.updatedAt [demoProgram "a" 5] [demoProgram "a" 7] ∧
    ∀ x ∈ mergeData Program.id Program.updatedAt [demoProgram "a" 5] [demoProgram "a" 7],
      x.id = (demoProgram "a" 5).id →
        x = if (demoProgram "a" 7).updatedAt < (demoProgram "a" 5).updatedAt
            then demoProgram "a" 5 else demoProgram "a" 7 :=
  (mergeData_lastWriterWins Program.id Program.updatedAt
      [demoProgram "a" 5] [demoProgram "a" 7] (by decide) (by decide)).2.2
    (demoProgram "a" 5) (by simp) (demoProgram "a" 7) (by simp) rfl
